import Mathlib

/-!
Verification development for the synthetic-curve factory
(synthethic_problem_factory/curves.py) and the kNN estimator wrapper
(benchmarks/knn.py).

Modelling conventions, shared by all definitions below:

* Floating point numbers are modelled by the real numbers, so every
  claim is settled in exact real arithmetic.
* A numpy vector of length n_features is modelled as a total function
  from natural numbers to the reals; indices at or beyond n_features lie
  outside the numpy array and are modelled as 0 (none of the source
  methods ever reads them back).  Norms are taken over the first
  n_features coordinates only.
* Sequential numpy element assignments (vec[i] = x) are modelled with
  Function.update in the same order as the source, so later assignments
  overwrite earlier ones exactly as in Python.
* A Python indexing error (list index out of range, or a numpy index
  outside the array) is modelled by returning none; Python negative
  index wrap-around is modelled faithfully in pyIdx and pyGet below.
* Raised Python exceptions of the factory are modelled with Except.
-/

noncomputable section

open Filter Topology

/-- Squared Euclidean norm of the first n coordinates of a vector,
matching np.linalg.norm over a numpy array of length n. -/
def sqnorm (n : ℕ) (v : ℕ → ℝ) : ℝ := ∑ i ∈ Finset.range n, v i ^ 2

/-! ## Python indexing helpers -/

/-- Effective index of a Python/numpy integer index i into a container of
length len: nonnegative indices are used directly, negative indices wrap
around once, anything else is out of range (IndexError). -/
def pyIdx (len : ℕ) (i : ℤ) : Option ℕ :=
  if 0 ≤ i ∧ i < (len : ℤ) then some i.toNat
  else if -(len : ℤ) ≤ i ∧ i < 0 then some (i + len).toNat
  else none

/-- Python list element access with integer index (IndexError gives none). -/
def pyGet {α : Type} (l : List α) (i : ℤ) : Option α :=
  match pyIdx l.length i with
  | some k => l.get? k
  | none => none

/-! ## class Identity_kD -/

/-- State of Identity_kD: ambient dimension (self._n), domain ends
(self._t0, self._t1) and the number of active coordinates (self._k). -/
structure Identity_kD where
  n_features : ℕ
  t0 : ℝ
  t1 : ℝ
  k : ℕ

/-- Constructor Identity_kD.__init__: when n_active_features is None,
self._k defaults to n_features. -/
def Identity_kD.init (n_features : ℕ) (start stop : ℝ)
    (n_active_features : Option ℕ) : Identity_kD :=
  ⟨n_features, start, stop, n_active_features.getD n_features⟩

/-- Identity_kD.get_basepoint: vec = np.zeros(n); vec[0:k] = t/sqrt(k). -/
def Identity_kD.get_basepoint (c : Identity_kD) (t : ℝ) : ℕ → ℝ :=
  fun i => if i < c.k then t / Real.sqrt c.k else 0

/-- Identity_kD.get_tangent: vec = np.zeros(n); vec[0:k] = 1/sqrt(k).
The parameter t is ignored by the source as well. -/
def Identity_kD.get_tangent (c : Identity_kD) (_t : ℝ) : ℕ → ℝ :=
  fun i => if i < c.k then 1 / Real.sqrt c.k else 0

/-! ## class Circle_Piece_2D -/

structure Circle_Piece_2D where
  n_features : ℕ
  t0 : ℝ
  t1 : ℝ

/-- Circle_Piece_2D.get_basepoint: (cos t, sin t, 0, ..., 0). -/
def Circle_Piece_2D.get_basepoint (_c : Circle_Piece_2D) (t : ℝ) : ℕ → ℝ :=
  fun i => if i = 0 then Real.cos t else if i = 1 then Real.sin t else 0

/-- Circle_Piece_2D.get_tangent: (-sin t, cos t, 0, ..., 0). -/
def Circle_Piece_2D.get_tangent (_c : Circle_Piece_2D) (t : ℝ) : ℕ → ℝ :=
  fun i => if i = 0 then -Real.sin t else if i = 1 then Real.cos t else 0

/-- Circle_Piece_2D.get_curvature_vector: (-cos t, -sin t, 0, ..., 0). -/
def Circle_Piece_2D.get_curvature_vector (_c : Circle_Piece_2D) (t : ℝ) : ℕ → ℝ :=
  fun i => if i = 0 then -Real.cos t else if i = 1 then -Real.sin t else 0

/-! ## class S_Curve_2D

Every method first shifts the caller parameter by t -= pi/2 and then
branches on the sign of the shifted parameter. -/

structure S_Curve_2D where
  n_features : ℕ
  t0 : ℝ
  t1 : ℝ

/-- S_Curve_2D.get_basepoint, lines 161-168 of curves.py: after the
shift, the branch t <= 0 gives (cos t, sin t) and the branch t > 0 gives
(2 - cos t, sin t).  Note the second coordinate is + sin t in both
branches in the source. -/
def S_Curve_2D.get_basepoint (_c : S_Curve_2D) (t : ℝ) : ℕ → ℝ :=
  if t - Real.pi / 2 ≤ 0 then
    fun i => if i = 0 then Real.cos (t - Real.pi / 2)
      else if i = 1 then Real.sin (t - Real.pi / 2) else 0
  else
    fun i => if i = 0 then 2 - Real.cos (t - Real.pi / 2)
      else if i = 1 then Real.sin (t - Real.pi / 2) else 0

/-- S_Curve_2D.get_tangent, lines 170-177 of curves.py. -/
def S_Curve_2D.get_tangent (_c : S_Curve_2D) (t : ℝ) : ℕ → ℝ :=
  if t - Real.pi / 2 ≤ 0 then
    fun i => if i = 0 then -Real.sin (t - Real.pi / 2)
      else if i = 1 then Real.cos (t - Real.pi / 2) else 0
  else
    fun i => if i = 0 then Real.sin (t - Real.pi / 2)
      else if i = 1 then Real.cos (t - Real.pi / 2) else 0

/-- S_Curve_2D.get_curvature_vector, lines 179-186 of curves.py. -/
def S_Curve_2D.get_curvature_vector (_c : S_Curve_2D) (t : ℝ) : ℕ → ℝ :=
  if t - Real.pi / 2 ≤ 0 then
    fun i => if i = 0 then -Real.cos (t - Real.pi / 2)
      else if i = 1 then -Real.sin (t - Real.pi / 2) else 0
  else
    fun i => if i = 0 then Real.cos (t - Real.pi / 2)
      else if i = 1 then -Real.sin (t - Real.pi / 2) else 0

/-! ## class Helix_Curve_3D -/

structure Helix_Curve_3D where
  n_features : ℕ
  t0 : ℝ
  t1 : ℝ
  radius : ℝ
  pitch : ℝ

/-- self._alpha = 1/sqrt(radius**2 + pitch**2). -/
def Helix_Curve_3D.alpha (c : Helix_Curve_3D) : ℝ :=
  1 / Real.sqrt (c.radius ^ 2 + c.pitch ^ 2)

/-- Helix_Curve_3D.get_basepoint, lines 208-213 of curves.py. -/
def Helix_Curve_3D.get_basepoint (c : Helix_Curve_3D) (t : ℝ) : ℕ → ℝ :=
  fun i => if i = 0 then c.radius * Real.cos (c.alpha * t)
    else if i = 1 then c.radius * Real.sin (c.alpha * t)
    else if i = 2 then c.alpha * c.pitch * t else 0

/-- Helix_Curve_3D.get_tangent, lines 215-220 of curves.py. -/
def Helix_Curve_3D.get_tangent (c : Helix_Curve_3D) (t : ℝ) : ℕ → ℝ :=
  fun i => if i = 0 then (-1) * c.radius * c.alpha * Real.sin (c.alpha * t)
    else if i = 1 then c.radius * c.alpha * Real.cos (c.alpha * t)
    else if i = 2 then c.alpha * c.pitch else 0

/-- Helix_Curve_3D.get_curvature_vector, lines 222-227 of curves.py:
note that the source sets vec[2] = self._alpha * self._pitch. -/
def Helix_Curve_3D.get_curvature_vector (c : Helix_Curve_3D) (t : ℝ) : ℕ → ℝ :=
  fun i => if i = 0 then (-1) * c.radius * c.alpha ^ 2 * Real.cos (c.alpha * t)
    else if i = 1 then (-1) * c.radius * c.alpha ^ 2 * Real.sin (c.alpha * t)
    else if i = 2 then c.alpha * c.pitch else 0

/-! ## class Circle_Segment_Builder -/

/-- State of Circle_Segment_Builder: self._sequence is the list of
(sign, axis) pairs, self._n = n_features.  self._n_segments is the
length of the sequence. -/
structure Circle_Segment_Builder where
  sequence : List (ℤ × ℕ)
  n_features : ℕ

def Circle_Segment_Builder.n_segments (b : Circle_Segment_Builder) : ℕ :=
  b.sequence.length

/-- The translation table built by _init_curve (lines 274-280 of
curves.py): column 0 is zero and column j (for 1 ≤ j < n_segments) is
column j-1 plus sequence[j-1].sign on axis sequence[j-1].axis plus
sequence[j].sign on axis sequence[j].axis.  The recursion below unrolls
that loop; the source only ever reads columns 0 .. n_segments-1, for
which every sequence access is in range. -/
def transCol (seq : List (ℤ × ℕ)) : ℕ → ℕ → ℝ
  | 0 => fun _ => 0
  | j + 1 => fun i =>
      transCol seq j i
      + (match seq.get? j with
         | some s => if s.2 = i then (s.1 : ℝ) else 0
         | none => 0)
      + (match seq.get? (j + 1) with
         | some s => if s.2 = i then (s.1 : ℝ) else 0
         | none => 0)

/-- Segment index np.floor(t/(pi/2)).astype(int) used by get_basepoint
and get_tangent. -/
def segIdx (t : ℝ) : ℤ := ⌊t / (Real.pi / 2)⌋

/-- Circle_Segment_Builder.get_basepoint, lines 282-294 of curves.py.
The accesses happen in source order: translations[:, seg] (numpy column
access), sequence[seg], sequence[seg+1] (Python list accesses), then the
two element assignments vec[ei], vec[ej] (in range only when the axes
are below n_features).  Any out-of-range access gives none
(IndexError). -/
def Circle_Segment_Builder.get_basepoint (b : Circle_Segment_Builder) (t : ℝ) :
    Option (ℕ → ℝ) :=
  (pyIdx b.sequence.length (segIdx t)).bind fun segn =>
  (pyGet b.sequence (segIdx t)).bind fun si =>
  (pyGet b.sequence (segIdx t + 1)).bind fun sj =>
  if si.2 < b.n_features ∧ sj.2 < b.n_features then
    let base : ℕ → ℝ := fun i => if i < b.n_features then transCol b.sequence segn i else 0
    let v1 : ℕ → ℝ := Function.update base si.2
      (base si.2 + (si.1 : ℝ) * Real.sin (t - (segIdx t : ℝ) * (Real.pi / 2)))
    let v2 : ℕ → ℝ := Function.update v1 sj.2
      (v1 sj.2 - (sj.1 : ℝ) * Real.cos (t - (segIdx t : ℝ) * (Real.pi / 2)) + (sj.1 : ℝ))
    some v2
  else none

/-- Circle_Segment_Builder.get_tangent, lines 297-308 of curves.py.
Unlike get_basepoint there is no translation access, and the two
assignments overwrite (vec[ei] = .., vec[ej] = ..), so a repeated axis
keeps only the second value. -/
def Circle_Segment_Builder.get_tangent (b : Circle_Segment_Builder) (t : ℝ) :
    Option (ℕ → ℝ) :=
  (pyGet b.sequence (segIdx t)).bind fun si =>
  (pyGet b.sequence (segIdx t + 1)).bind fun sj =>
  if si.2 < b.n_features ∧ sj.2 < b.n_features then
    some (Function.update
      (Function.update (fun _ => (0 : ℝ)) si.2
        ((si.1 : ℝ) * Real.cos (t - (segIdx t : ℝ) * (Real.pi / 2))))
      sj.2 ((sj.1 : ℝ) * Real.sin (t - (segIdx t : ℝ) * (Real.pi / 2))))
  else none

/-- Circle_Segment_Builder.get_length. -/
def Circle_Segment_Builder.get_length (_b : Circle_Segment_Builder) (t0 t1 : ℝ) : ℝ :=
  |t1 - t0|

/-- The example builder of the spec and of claim C2:
sequence [(1,0),(1,1),(-1,0),(-1,1)] with n_features = 2. -/
def B2 : Circle_Segment_Builder :=
  ⟨[(1, 0), (1, 1), (-1, 0), (-1, 1)], 2⟩

/-! ## get_manifold factory -/

/-- Python exceptions raised by get_manifold: the explicit
NotImplementedError of the final branch, and the NameError raised in the
branch manifold_id == "circle", whose body constructs Circle(...) while
no name Circle is bound anywhere in the module (the only circle class is
Circle_Piece_2D, and curves.py imports nothing that could provide the
name Circle). -/
inductive PyExn where
  | notImplementedError (manifold_id : Option String)
  | nameError (missing_name : String)
deriving DecidableEq

/-- The curve instances the factory can build. -/
inductive Manifold where
  | identity (c : Identity_kD)
  | scurve (c : S_Curve_2D)
  | helix (c : Helix_Curve_3D)

/-- get_manifold, lines 34-46 of curves.py.  The keyword arguments
forwarded via **kwargs are passed explicitly: n_active_features for the
identity branch, radius and pitch for the helix branch (Python default
values are supplied by the caller of this definition). -/
def get_manifold (n_features : ℕ) (manifold_id : Option String)
    (start stop : ℝ) (n_active_features : Option ℕ) (radius pitch : ℝ) :
    Except PyExn Manifold :=
  if manifold_id = some "identity" then
    Except.ok (Manifold.identity (Identity_kD.init n_features start stop n_active_features))
  else if manifold_id = some "circle" then
    Except.error (PyExn.nameError "Circle")
  else if manifold_id = some "scurve" then
    Except.ok (Manifold.scurve ⟨n_features, start, stop⟩)
  else if manifold_id = some "helix" then
    Except.ok (Manifold.helix ⟨n_features, start, stop, radius, pitch⟩)
  else
    Except.error (PyExn.notImplementedError manifold_id)

/-! ## benchmarks/knn.py -/

/-- The neighbor count handed to KNeighborsRegressor by knn, lines 13-16
of knn.py: under neighbor_modus == "factor" it is
floor(n_neighbors * N ** (2/(2+D))) cast to an integer, otherwise the
given n_neighbors unchanged.  Exponentiation is the real power np.power. -/
def knn.n_neighbors_used (neighbor_modus : String) (n_neighbors N D : ℝ) : ℝ :=
  if neighbor_modus = "factor" then
    ((⌊n_neighbors * N ^ (2 / (2 + D))⌋ : ℤ) : ℝ)
  else
    n_neighbors

/-! ## normal_nd and the numpy SVD contract -/

/-- Euclidean dot product of two vectors in R^D. -/
def dotF {D : ℕ} (x y : Fin D → ℝ) : ℝ := ∑ i, x i * y i

/-- normal_nd, lines 14-30 of curves.py, at its only call shape: every
get_normal passes a single column (the tangent reshaped to (n,1)), so
np.linalg.svd is applied to the 1×D matrix vectors.T and returns U
(1×1), S (length 1, entry S0) and the D×D matrix V of stacked right
singular vectors.  The code keeps V.T[:, basis_idx], i.e. the rows of V
whose index is not in where(S > 1e-14): row 0 is dropped exactly when
S0 > 1e-14, otherwise all D rows are kept.  The decomposition itself is
computed by LAPACK inside numpy (outside this repository), so normal_nd
is modelled as a function of the returned factors (V, S0); the
properties numpy guarantees for them are hypotheses of the theorems
below (structure SVD1). -/
def normal_nd {D : ℕ} (V : Fin D → Fin D → ℝ) (S0 : ℝ) : List (Fin D → ℝ) :=
  if 1e-14 < S0 then ((List.finRange D).drop 1).map V
  else (List.finRange D).map V

/-- The guarantees of np.linalg.svd(a.T, full_matrices=1, compute_uv=1)
for a single input vector a: a 1×1 orthogonal U (a sign u), a
nonnegative singular value S0, a D×D matrix V with orthonormal rows and
columns, and the factorisation a = u * S0 * (row 0 of V). -/
structure SVD1 (D : ℕ) [NeZero D] (a : Fin D → ℝ) where
  V : Fin D → Fin D → ℝ
  S0 : ℝ
  u : ℝ
  hu : u ^ 2 = 1
  hS : 0 ≤ S0
  rows : ∀ i j, dotF (V i) (V j) = if i = j then 1 else 0
  cols : ∀ k l, (∑ i, V i k * V i l) = if k = l then 1 else 0
  decomp : ∀ k, a k = u * S0 * V 0 k

/-- np.reshape(vec, (D, -1)): the length-D numpy vector as a vector
over Fin D. -/
def toFin (D : ℕ) (v : ℕ → ℝ) : Fin D → ℝ := fun i => v i

/-- A degenerate builder whose first segment uses the same axis twice:
sequence [(1,0),(1,0)] with n_features = 2.  On its first segment the
tangent is (sin t, 0), which is arbitrarily small but nonzero for small
positive t. -/
def badBuilder : Circle_Segment_Builder := ⟨[(1, 0), (1, 0)], 2⟩

/-- The tangent badBuilder produces at t = 1e-20. -/
def cexTan : ℕ → ℝ := fun i => if i = 0 then Real.sin 1e-20 else 0

/-- The identity matrix on Fin 2, which is the matrix of right singular
vectors numpy returns for a 1×2 input proportional to (1, 0). -/
def cexV : Fin 2 → Fin 2 → ℝ := fun i j => if i = j then 1 else 0

/-- The SVD factors of the 1×2 matrix with row cexTan: V is the
identity, S0 = sin(1e-20) and u = 1. -/
def cexSVD : SVD1 2 (toFin 2 cexTan) where
  V := cexV
  S0 := Real.sin 1e-20
  u := 1
  hu := by norm_num
  hS := by
    have h3 := Real.pi_gt_three
    exact le_of_lt (Real.sin_pos_of_pos_of_lt_pi (by norm_num) (by nlinarith))
  rows := by
    intro i j
    fin_cases i <;> fin_cases j <;>
      simp [dotF, Fin.sum_univ_two, cexV]
  cols := by
    intro k l
    fin_cases k <;> fin_cases l <;>
      simp [Fin.sum_univ_two, cexV]
  decomp := by
    intro k
    fin_cases k <;> simp [toFin, cexTan, cexV]

/-- A unit tangent along the first axis in R^2. -/
def goodA : Fin 2 → ℝ := fun i => if i = 0 then 1 else 0

/-- The SVD factors of the 1×2 matrix with row goodA: V is the
identity, S0 = 1 and u = 1. -/
def goodSVD : SVD1 2 goodA where
  V := cexV
  S0 := 1
  u := 1
  hu := by norm_num
  hS := by norm_num
  rows := by
    intro i j
    fin_cases i <;> fin_cases j <;>
      simp [dotF, Fin.sum_univ_two, cexV]
  cols := by
    intro k l
    fin_cases k <;> fin_cases l <;>
      simp [Fin.sum_univ_two, cexV]
  decomp := by
    intro k
    fin_cases k <;> simp [goodA, cexV]

/-! ## Helper lemmas -/

/-- A vector of length 2 (with the trailing zeros of np.zeros),
used to state concrete basepoint and tangent values. -/
def vec2 (x y : ℝ) : ℕ → ℝ :=
  fun i => if i = 0 then x else if i = 1 then y else 0

/-- The value computed by B2.get_tangent at t = 0 (first segment,
axes 0 and 1, both signs +1). -/
def wB2t0 : ℕ → ℝ :=
  Function.update (Function.update (fun _ => (0 : ℝ)) 0
    (((1 : ℤ) : ℝ) * Real.cos (0 - ((segIdx 0 : ℤ) : ℝ) * (Real.pi / 2))))
    1 (((1 : ℤ) : ℝ) * Real.sin (0 - ((segIdx 0 : ℤ) : ℝ) * (Real.pi / 2)))

/-- Floor computation for the segment index on a concrete quarter-circle
interval. -/
theorem segIdx_eq (k : ℕ) (t : ℝ) (h1 : (k : ℝ) * (Real.pi / 2) ≤ t)
    (h2 : t < ((k : ℝ) + 1) * (Real.pi / 2)) : segIdx t = (k : ℤ) := by
  have hp : (0 : ℝ) < Real.pi / 2 := by
    have := Real.pi_pos
    linarith
  unfold segIdx
  rw [Int.floor_eq_iff]
  constructor
  · rw [le_div_iff₀ hp]
    exact_mod_cast h1
  · rw [div_lt_iff₀ hp]
    push_cast
    exact h2

theorem segIdx_pihalf : segIdx (Real.pi / 2) = 1 := by
  have hp := Real.pi_pos
  have h := segIdx_eq 1 (Real.pi / 2) (by push_cast; linarith) (by push_cast; linarith)
  simpa using h

theorem segIdx_pi : segIdx Real.pi = 2 := by
  have hp := Real.pi_pos
  have h := segIdx_eq 2 Real.pi (by push_cast; linarith) (by push_cast; linarith)
  simpa using h

theorem segIdx_3pihalf : segIdx (3 * (Real.pi / 2)) = 3 := by
  have hp := Real.pi_pos
  have h := segIdx_eq 3 (3 * (Real.pi / 2)) (by push_cast; linarith) (by push_cast; linarith)
  simpa using h

theorem segIdx_zero : segIdx 0 = 0 := by
  have hp := Real.pi_pos
  have h := segIdx_eq 0 0 (by norm_num) (by norm_num; linarith)
  simpa using h

/-- Componentwise limit lemma for two-coordinate branch formulas. -/
theorem tendsto_formula2 (a b : ℕ) {f g : ℝ → ℝ} {x y : ℝ} (l : Filter ℝ)
    (hf : Filter.Tendsto f l (𝓝 x)) (hg : Filter.Tendsto g l (𝓝 y)) :
    Filter.Tendsto
      (fun t => fun i : ℕ => if i = a then f t else if i = b then g t else 0) l
      (𝓝 (fun i : ℕ => if i = a then x else if i = b then y else 0)) := by
  rw [tendsto_pi_nhds]
  intro i
  by_cases hia : i = a
  · subst hia
    simpa using hf
  by_cases hib : i = b
  · subst hib
    simpa [hia] using hg
  · simpa [hia, hib] using (tendsto_const_nhds : Filter.Tendsto (fun _ : ℝ => (0 : ℝ)) l _)

/-- Reorder a two-coordinate branch formula into vec2 form. -/
theorem formula2_eq_vec2 (x y : ℝ) :
    (fun i : ℕ => if i = 1 then y else if i = 0 then x else 0) = vec2 x y := by
  funext i
  unfold vec2
  rcases eq_or_ne i 0 with rfl | h0
  · norm_num
  rcases eq_or_ne i 1 with rfl | h1
  · norm_num
  · simp [h0, h1]

/-- Limits of an Option-valued query through getD, given a region on
which the query agrees with a converging total formula. -/
theorem tendsto_getD_of_region {f : ℝ → Option (ℕ → ℝ)} {g : ℝ → ℕ → ℝ}
    {l : Filter ℝ} {V : ℕ → ℝ} (s : Set ℝ) (hs : s ∈ l)
    (hreg : ∀ t ∈ s, f t = some (g t))
    (hg : Filter.Tendsto g l (𝓝 V)) :
    Filter.Tendsto (fun t => (f t).getD (fun _ => 0)) l (𝓝 V) := by
  refine Filter.Tendsto.congr' ?_ hg
  filter_upwards [hs] with t ht
  rw [hreg t ht]
  rfl

/-- A squared norm over the first n coordinates collapses to two terms
when the vector vanishes off two distinct in-range indices. -/
theorem sqnorm_pair (n a b : ℕ) (hab : a ≠ b) (ha : a < n) (hb : b < n)
    (v : ℕ → ℝ) (h : ∀ i, i ≠ a → i ≠ b → v i = 0) :
    sqnorm n v = v a ^ 2 + v b ^ 2 := by
  unfold sqnorm
  have hsub : ({a, b} : Finset ℕ) ⊆ Finset.range n := by
    intro i hi
    simp only [Finset.mem_insert, Finset.mem_singleton] at hi
    rcases hi with rfl | rfl
    · simpa using ha
    · simpa using hb
  have hzero : ∀ i ∈ Finset.range n, i ∉ ({a, b} : Finset ℕ) → v i ^ 2 = 0 := by
    intro i _ hnotin
    simp only [Finset.mem_insert, Finset.mem_singleton, not_or] at hnotin
    rw [h i hnotin.1 hnotin.2]
    ring
  rw [← Finset.sum_subset hsub hzero]
  rw [Finset.sum_insert (by simpa using hab), Finset.sum_singleton]

/-- A squared norm over the first n coordinates collapses to three terms
when the vector vanishes off indices 0, 1, 2 and n ≥ 3. -/
theorem sqnorm_three (n : ℕ) (hn : 3 ≤ n) (v : ℕ → ℝ)
    (h : ∀ i, i ≠ 0 → i ≠ 1 → i ≠ 2 → v i = 0) :
    sqnorm n v = v 0 ^ 2 + v 1 ^ 2 + v 2 ^ 2 := by
  unfold sqnorm
  have hsub : ({0, 1, 2} : Finset ℕ) ⊆ Finset.range n := by
    intro i hi
    simp only [Finset.mem_insert, Finset.mem_singleton] at hi
    have hi3 : i < 3 := by omega
    exact Finset.mem_range.2 (lt_of_lt_of_le hi3 hn)
  have hzero : ∀ i ∈ Finset.range n, i ∉ ({0, 1, 2} : Finset ℕ) → v i ^ 2 = 0 := by
    intro i _ hnotin
    simp only [Finset.mem_insert, Finset.mem_singleton, not_or] at hnotin
    rw [h i hnotin.1 hnotin.2.1 hnotin.2.2]
    ring
  rw [← Finset.sum_subset hsub hzero]
  rw [Finset.sum_insert (by norm_num), Finset.sum_insert (by norm_num),
    Finset.sum_singleton]
  ring

/-- Squared norm of the constant-on-the-first-k-coordinates vector. -/
theorem sqnorm_const_head (n k : ℕ) (hkn : k ≤ n) (c : ℝ) :
    sqnorm n (fun i => if i < k then c else 0) = k * c ^ 2 := by
  unfold sqnorm
  have hzero : ∀ i ∈ Finset.range n, i ∉ Finset.range k →
      (if i < k then c else 0) ^ 2 = 0 := by
    intro i _ hnotin
    have hik : ¬ i < k := fun hc => hnotin (Finset.mem_range.2 hc)
    simp [hik]
  rw [← Finset.sum_subset (Finset.range_subset.2 hkn) hzero]
  have hcongr : ∀ i ∈ Finset.range k, (if i < k then c else 0) ^ 2 = c ^ 2 := by
    intro i hi
    simp [Finset.mem_range.1 hi]
  rw [Finset.sum_congr rfl hcongr, Finset.sum_const, Finset.card_range,
    nsmul_eq_mul]

/-- On segment 0 the basepoint of B2 is (sin t, 1 - cos t). -/
theorem B2_bp_seg0 (t : ℝ) (h : segIdx t = 0) :
    B2.get_basepoint t = some (fun i => if i = 1 then 1 - Real.cos t
      else if i = 0 then Real.sin t else 0) := by
  unfold Circle_Segment_Builder.get_basepoint
  rw [h]
  have hpi : pyIdx B2.sequence.length 0 = some 0 := rfl
  have hg0 : pyGet B2.sequence 0 = some (1, 0) := rfl
  have hg1 : pyGet B2.sequence (0 + 1) = some (1, 1) := rfl
  rw [hpi, hg0, hg1]
  simp only [Option.some_bind]
  rw [if_pos (by exact ⟨by norm_num [B2], by norm_num [B2]⟩)]
  rw [show t - ((0 : ℤ) : ℝ) * (Real.pi / 2) = t from by push_cast; ring]
  simp only [Option.some.injEq]
  funext i
  rcases eq_or_ne i 1 with rfl | hi1
  · rw [Function.update_same, Function.update_noteq (by norm_num : (1 : ℕ) ≠ 0)]
    norm_num [B2, transCol]
    ring
  rcases eq_or_ne i 0 with rfl | hi0
  · rw [Function.update_noteq (by norm_num : (0 : ℕ) ≠ 1), Function.update_same]
    norm_num [B2, transCol]
  · rw [Function.update_noteq hi1, Function.update_noteq hi0]
    have h2 : ¬ i < 2 := by omega
    simp [B2, hi1, hi0, h2]

/-- On segment 1 the basepoint of B2 is
(cos(t - pi/2), 1 + sin(t - pi/2)). -/
theorem B2_bp_seg1 (t : ℝ) (h : segIdx t = 1) :
    B2.get_basepoint t = some (fun i => if i = 0 then Real.cos (t - Real.pi / 2)
      else if i = 1 then 1 + Real.sin (t - Real.pi / 2) else 0) := by
  unfold Circle_Segment_Builder.get_basepoint
  rw [h]
  have hpi : pyIdx B2.sequence.length 1 = some 1 := rfl
  have hg0 : pyGet B2.sequence 1 = some (1, 1) := rfl
  have hg1 : pyGet B2.sequence (1 + 1) = some (-1, 0) := rfl
  rw [hpi, hg0, hg1]
  simp only [Option.some_bind]
  rw [if_pos (by exact ⟨by norm_num [B2], by norm_num [B2]⟩)]
  rw [show t - ((1 : ℤ) : ℝ) * (Real.pi / 2) = t - Real.pi / 2 from by push_cast; ring]
  simp only [Option.some.injEq]
  funext i
  rcases eq_or_ne i 0 with rfl | hi0
  · rw [Function.update_same, Function.update_noteq (by norm_num : (0 : ℕ) ≠ 1)]
    norm_num [B2, transCol]
  rcases eq_or_ne i 1 with rfl | hi1
  · rw [Function.update_noteq (by norm_num : (1 : ℕ) ≠ 0), Function.update_same]
    norm_num [B2, transCol]
  · rw [Function.update_noteq hi0, Function.update_noteq hi1]
    have h2 : ¬ i < 2 := by omega
    simp [B2, hi0, hi1, h2]

/-- On segment 2 the basepoint of B2 is
(-sin(t - pi), 1 + cos(t - pi)). -/
theorem B2_bp_seg2 (t : ℝ) (h : segIdx t = 2) :
    B2.get_basepoint t = some (fun i => if i = 1 then 1 + Real.cos (t - Real.pi)
      else if i = 0 then -Real.sin (t - Real.pi) else 0) := by
  unfold Circle_Segment_Builder.get_basepoint
  rw [h]
  have hpi : pyIdx B2.sequence.length 2 = some 2 := rfl
  have hg0 : pyGet B2.sequence 2 = some (-1, 0) := rfl
  have hg1 : pyGet B2.sequence (2 + 1) = some (-1, 1) := rfl
  rw [hpi, hg0, hg1]
  simp only [Option.some_bind]
  rw [if_pos (by exact ⟨by norm_num [B2], by norm_num [B2]⟩)]
  rw [show t - ((2 : ℤ) : ℝ) * (Real.pi / 2) = t - Real.pi from by push_cast; ring]
  simp only [Option.some.injEq]
  funext i
  rcases eq_or_ne i 1 with rfl | hi1
  · rw [Function.update_same, Function.update_noteq (by norm_num : (1 : ℕ) ≠ 0)]
    norm_num [B2, transCol]
    ring
  rcases eq_or_ne i 0 with rfl | hi0
  · rw [Function.update_noteq (by norm_num : (0 : ℕ) ≠ 1), Function.update_same]
    norm_num [B2, transCol]
  · rw [Function.update_noteq hi1, Function.update_noteq hi0]
    have h2 : ¬ i < 2 := by omega
    simp [B2, hi1, hi0, h2]

/-- On segment 0 the tangent of B2 is (cos t, sin t). -/
theorem B2_tan_seg0 (t : ℝ) (h : segIdx t = 0) :
    B2.get_tangent t = some (fun i => if i = 1 then Real.sin t
      else if i = 0 then Real.cos t else 0) := by
  unfold Circle_Segment_Builder.get_tangent
  rw [h]
  have hg0 : pyGet B2.sequence 0 = some (1, 0) := rfl
  have hg1 : pyGet B2.sequence (0 + 1) = some (1, 1) := rfl
  rw [hg0, hg1]
  simp only [Option.some_bind]
  rw [if_pos (by exact ⟨by norm_num [B2], by norm_num [B2]⟩)]
  rw [show t - ((0 : ℤ) : ℝ) * (Real.pi / 2) = t from by push_cast; ring]
  simp only [Option.some.injEq]
  funext i
  rcases eq_or_ne i 1 with rfl | hi1
  · rw [Function.update_same]
    norm_num
  rcases eq_or_ne i 0 with rfl | hi0
  · rw [Function.update_noteq (by norm_num : (0 : ℕ) ≠ 1), Function.update_same]
    norm_num
  · rw [Function.update_noteq hi1, Function.update_noteq hi0]
    simp [hi1, hi0]

/-- On segment 1 the tangent of B2 is
(-sin(t - pi/2), cos(t - pi/2)). -/
theorem B2_tan_seg1 (t : ℝ) (h : segIdx t = 1) :
    B2.get_tangent t = some (fun i => if i = 0 then -Real.sin (t - Real.pi / 2)
      else if i = 1 then Real.cos (t - Real.pi / 2) else 0) := by
  unfold Circle_Segment_Builder.get_tangent
  rw [h]
  have hg0 : pyGet B2.sequence 1 = some (1, 1) := rfl
  have hg1 : pyGet B2.sequence (1 + 1) = some (-1, 0) := rfl
  rw [hg0, hg1]
  simp only [Option.some_bind]
  rw [if_pos (by exact ⟨by norm_num [B2], by norm_num [B2]⟩)]
  rw [show t - ((1 : ℤ) : ℝ) * (Real.pi / 2) = t - Real.pi / 2 from by push_cast; ring]
  simp only [Option.some.injEq]
  funext i
  rcases eq_or_ne i 0 with rfl | hi0
  · rw [Function.update_same]
    norm_num
  rcases eq_or_ne i 1 with rfl | hi1
  · rw [Function.update_noteq (by norm_num : (1 : ℕ) ≠ 0), Function.update_same]
    norm_num
  · rw [Function.update_noteq hi0, Function.update_noteq hi1]
    simp [hi0, hi1]

/-- On segment 2 the tangent of B2 is
(-cos(t - pi), -sin(t - pi)). -/
theorem B2_tan_seg2 (t : ℝ) (h : segIdx t = 2) :
    B2.get_tangent t = some (fun i => if i = 1 then -Real.sin (t - Real.pi)
      else if i = 0 then -Real.cos (t - Real.pi) else 0) := by
  unfold Circle_Segment_Builder.get_tangent
  rw [h]
  have hg0 : pyGet B2.sequence 2 = some (-1, 0) := rfl
  have hg1 : pyGet B2.sequence (2 + 1) = some (-1, 1) := rfl
  rw [hg0, hg1]
  simp only [Option.some_bind]
  rw [if_pos (by exact ⟨by norm_num [B2], by norm_num [B2]⟩)]
  rw [show t - ((2 : ℤ) : ℝ) * (Real.pi / 2) = t - Real.pi from by push_cast; ring]
  simp only [Option.some.injEq]
  funext i
  rcases eq_or_ne i 1 with rfl | hi1
  · rw [Function.update_same]
    norm_num
  rcases eq_or_ne i 0 with rfl | hi0
  · rw [Function.update_noteq (by norm_num : (0 : ℕ) ≠ 1), Function.update_same]
    norm_num
  · rw [Function.update_noteq hi1, Function.update_noteq hi0]
    simp [hi1, hi0]

/-- Both builder queries fail at t = 3*pi/2 for B2: segment index 3
reads sequence[4], one past the end. -/
theorem B2_3pihalf_none :
    B2.get_basepoint (3 * (Real.pi / 2)) = none
    ∧ B2.get_tangent (3 * (Real.pi / 2)) = none := by
  have hnone : pyGet B2.sequence (segIdx (3 * (Real.pi / 2)) + 1) = none := by
    rw [segIdx_3pihalf]
    rfl
  constructor
  · unfold Circle_Segment_Builder.get_basepoint
    rw [segIdx_3pihalf] at hnone ⊢
    have hpi : pyIdx B2.sequence.length 3 = some 3 := rfl
    have hg0 : pyGet B2.sequence 3 = some (-1, 1) := rfl
    rw [hpi, hg0, hnone]
    rfl
  · unfold Circle_Segment_Builder.get_tangent
    rw [segIdx_3pihalf] at hnone ⊢
    have hg0 : pyGet B2.sequence 3 = some (-1, 1) := rfl
    rw [hg0, hnone]
    rfl

/-- Left limit of the B2 basepoint at pi/2. -/
theorem B2_bpL1 :
    Filter.Tendsto (fun t => (B2.get_basepoint t).getD (fun _ => 0))
      (𝓝[<] (Real.pi / 2)) (𝓝 (vec2 1 1)) := by
  have hp := Real.pi_pos
  apply tendsto_getD_of_region (Set.Ioo 0 (Real.pi / 2))
    (Ioo_mem_nhdsWithin_Iio ⟨by linarith, le_refl _⟩)
  · intro t ht
    exact B2_bp_seg0 t
      (segIdx_eq 0 t (by push_cast; linarith [ht.1]) (by push_cast; linarith [ht.2]))
  · rw [← formula2_eq_vec2]
    apply tendsto_formula2
    · have hc : Continuous fun t : ℝ => 1 - Real.cos t :=
        continuous_const.sub Real.continuous_cos
      exact Filter.Tendsto.mono_left
        (by simpa using hc.tendsto (Real.pi / 2)) nhdsWithin_le_nhds
    · exact Filter.Tendsto.mono_left
        (by simpa using Real.continuous_sin.tendsto (Real.pi / 2)) nhdsWithin_le_nhds

/-- Right limit of the B2 basepoint at pi/2. -/
theorem B2_bpR1 :
    Filter.Tendsto (fun t => (B2.get_basepoint t).getD (fun _ => 0))
      (𝓝[>] (Real.pi / 2)) (𝓝 (vec2 1 1)) := by
  have hp := Real.pi_pos
  apply tendsto_getD_of_region (Set.Ioo (Real.pi / 2) Real.pi)
    (Ioo_mem_nhdsWithin_Ioi ⟨le_refl _, by linarith⟩)
  · intro t ht
    exact B2_bp_seg1 t
      (segIdx_eq 1 t (by push_cast; linarith [ht.1]) (by push_cast; linarith [ht.2]))
  · show Filter.Tendsto _ _
      (𝓝 (fun i : ℕ => if i = 0 then (1 : ℝ) else if i = 1 then 1 else 0))
    apply tendsto_formula2
    · have hc : Continuous fun t : ℝ => Real.cos (t - Real.pi / 2) :=
        Real.continuous_cos.comp (continuous_sub_right _)
      exact Filter.Tendsto.mono_left
        (by simpa using hc.tendsto (Real.pi / 2)) nhdsWithin_le_nhds
    · have hc : Continuous fun t : ℝ => 1 + Real.sin (t - Real.pi / 2) :=
        continuous_const.add (Real.continuous_sin.comp (continuous_sub_right _))
      exact Filter.Tendsto.mono_left
        (by simpa using hc.tendsto (Real.pi / 2)) nhdsWithin_le_nhds

/-- Left limit of the B2 basepoint at pi. -/
theorem B2_bpL2 :
    Filter.Tendsto (fun t => (B2.get_basepoint t).getD (fun _ => 0))
      (𝓝[<] Real.pi) (𝓝 (vec2 0 2)) := by
  have hp := Real.pi_pos
  apply tendsto_getD_of_region (Set.Ioo (Real.pi / 2) Real.pi)
    (Ioo_mem_nhdsWithin_Iio ⟨by linarith, le_refl _⟩)
  · intro t ht
    exact B2_bp_seg1 t
      (segIdx_eq 1 t (by push_cast; linarith [ht.1]) (by push_cast; linarith [ht.2]))
  · show Filter.Tendsto _ _
      (𝓝 (fun i : ℕ => if i = 0 then (0 : ℝ) else if i = 1 then 2 else 0))
    apply tendsto_formula2
    · have hc : Continuous fun t : ℝ => Real.cos (t - Real.pi / 2) :=
        Real.continuous_cos.comp (continuous_sub_right _)
      have h := hc.tendsto Real.pi
      rw [show Real.pi - Real.pi / 2 = Real.pi / 2 from by ring] at h
      rw [Real.cos_pi_div_two] at h
      exact h.mono_left nhdsWithin_le_nhds
    · have hc : Continuous fun t : ℝ => 1 + Real.sin (t - Real.pi / 2) :=
        continuous_const.add (Real.continuous_sin.comp (continuous_sub_right _))
      have h := hc.tendsto Real.pi
      rw [show Real.pi - Real.pi / 2 = Real.pi / 2 from by ring] at h
      rw [Real.sin_pi_div_two, one_add_one_eq_two] at h
      exact h.mono_left nhdsWithin_le_nhds

/-- Right limit of the B2 basepoint at pi. -/
theorem B2_bpR2 :
    Filter.Tendsto (fun t => (B2.get_basepoint t).getD (fun _ => 0))
      (𝓝[>] Real.pi) (𝓝 (vec2 0 2)) := by
  have hp := Real.pi_pos
  apply tendsto_getD_of_region (Set.Ioo Real.pi (3 * (Real.pi / 2)))
    (Ioo_mem_nhdsWithin_Ioi ⟨le_refl _, by linarith⟩)
  · intro t ht
    exact B2_bp_seg2 t
      (segIdx_eq 2 t (by push_cast; linarith [ht.1]) (by push_cast; linarith [ht.2]))
  · rw [← formula2_eq_vec2]
    apply tendsto_formula2
    · have hc : Continuous fun t : ℝ => 1 + Real.cos (t - Real.pi) :=
        continuous_const.add (Real.continuous_cos.comp (continuous_sub_right _))
      have h := hc.tendsto Real.pi
      rw [show Real.pi - Real.pi = 0 from by ring, Real.cos_zero,
        one_add_one_eq_two] at h
      exact h.mono_left nhdsWithin_le_nhds
    · have hc : Continuous fun t : ℝ => -Real.sin (t - Real.pi) :=
        (Real.continuous_sin.comp (continuous_sub_right _)).neg
      have h := hc.tendsto Real.pi
      rw [show Real.pi - Real.pi = 0 from by ring, Real.sin_zero, neg_zero] at h
      exact h.mono_left nhdsWithin_le_nhds

/-- Left limit of the B2 tangent at pi/2. -/
theorem B2_tanL1 :
    Filter.Tendsto (fun t => (B2.get_tangent t).getD (fun _ => 0))
      (𝓝[<] (Real.pi / 2)) (𝓝 (vec2 0 1)) := by
  have hp := Real.pi_pos
  apply tendsto_getD_of_region (Set.Ioo 0 (Real.pi / 2))
    (Ioo_mem_nhdsWithin_Iio ⟨by linarith, le_refl _⟩)
  · intro t ht
    exact B2_tan_seg0 t
      (segIdx_eq 0 t (by push_cast; linarith [ht.1]) (by push_cast; linarith [ht.2]))
  · rw [← formula2_eq_vec2]
    apply tendsto_formula2
    · exact Filter.Tendsto.mono_left
        (by simpa using Real.continuous_sin.tendsto (Real.pi / 2)) nhdsWithin_le_nhds
    · exact Filter.Tendsto.mono_left
        (by simpa using Real.continuous_cos.tendsto (Real.pi / 2)) nhdsWithin_le_nhds

/-- Right limit of the B2 tangent at pi/2. -/
theorem B2_tanR1 :
    Filter.Tendsto (fun t => (B2.get_tangent t).getD (fun _ => 0))
      (𝓝[>] (Real.pi / 2)) (𝓝 (vec2 0 1)) := by
  have hp := Real.pi_pos
  apply tendsto_getD_of_region (Set.Ioo (Real.pi / 2) Real.pi)
    (Ioo_mem_nhdsWithin_Ioi ⟨le_refl _, by linarith⟩)
  · intro t ht
    exact B2_tan_seg1 t
      (segIdx_eq 1 t (by push_cast; linarith [ht.1]) (by push_cast; linarith [ht.2]))
  · show Filter.Tendsto _ _
      (𝓝 (fun i : ℕ => if i = 0 then (0 : ℝ) else if i = 1 then 1 else 0))
    apply tendsto_formula2
    · have hc : Continuous fun t : ℝ => -Real.sin (t - Real.pi / 2) :=
        (Real.continuous_sin.comp (continuous_sub_right _)).neg
      exact Filter.Tendsto.mono_left
        (by simpa using hc.tendsto (Real.pi / 2)) nhdsWithin_le_nhds
    · have hc : Continuous fun t : ℝ => Real.cos (t - Real.pi / 2) :=
        Real.continuous_cos.comp (continuous_sub_right _)
      exact Filter.Tendsto.mono_left
        (by simpa using hc.tendsto (Real.pi / 2)) nhdsWithin_le_nhds

/-- Left limit of the B2 tangent at pi. -/
theorem B2_tanL2 :
    Filter.Tendsto (fun t => (B2.get_tangent t).getD (fun _ => 0))
      (𝓝[<] Real.pi) (𝓝 (vec2 (-1) 0)) := by
  have hp := Real.pi_pos
  apply tendsto_getD_of_region (Set.Ioo (Real.pi / 2) Real.pi)
    (Ioo_mem_nhdsWithin_Iio ⟨by linarith, le_refl _⟩)
  · intro t ht
    exact B2_tan_seg1 t
      (segIdx_eq 1 t (by push_cast; linarith [ht.1]) (by push_cast; linarith [ht.2]))
  · show Filter.Tendsto _ _
      (𝓝 (fun i : ℕ => if i = 0 then (-1 : ℝ) else if i = 1 then 0 else 0))
    apply tendsto_formula2
    · have hc : Continuous fun t : ℝ => -Real.sin (t - Real.pi / 2) :=
        (Real.continuous_sin.comp (continuous_sub_right _)).neg
      have h := hc.tendsto Real.pi
      rw [show Real.pi - Real.pi / 2 = Real.pi / 2 from by ring,
        Real.sin_pi_div_two] at h
      exact h.mono_left nhdsWithin_le_nhds
    · have hc : Continuous fun t : ℝ => Real.cos (t - Real.pi / 2) :=
        Real.continuous_cos.comp (continuous_sub_right _)
      have h := hc.tendsto Real.pi
      rw [show Real.pi - Real.pi / 2 = Real.pi / 2 from by ring,
        Real.cos_pi_div_two] at h
      exact h.mono_left nhdsWithin_le_nhds

/-- Right limit of the B2 tangent at pi. -/
theorem B2_tanR2 :
    Filter.Tendsto (fun t => (B2.get_tangent t).getD (fun _ => 0))
      (𝓝[>] Real.pi) (𝓝 (vec2 (-1) 0)) := by
  have hp := Real.pi_pos
  apply tendsto_getD_of_region (Set.Ioo Real.pi (3 * (Real.pi / 2)))
    (Ioo_mem_nhdsWithin_Ioi ⟨le_refl _, by linarith⟩)
  · intro t ht
    exact B2_tan_seg2 t
      (segIdx_eq 2 t (by push_cast; linarith [ht.1]) (by push_cast; linarith [ht.2]))
  · rw [← formula2_eq_vec2]
    apply tendsto_formula2
    · have hc : Continuous fun t : ℝ => -Real.sin (t - Real.pi) :=
        (Real.continuous_sin.comp (continuous_sub_right _)).neg
      have h := hc.tendsto Real.pi
      rw [show Real.pi - Real.pi = 0 from by ring, Real.sin_zero, neg_zero] at h
      exact h.mono_left nhdsWithin_le_nhds
    · have hc : Continuous fun t : ℝ => -Real.cos (t - Real.pi) :=
        (Real.continuous_cos.comp (continuous_sub_right _)).neg
      have h := hc.tendsto Real.pi
      rw [show Real.pi - Real.pi = 0 from by ring, Real.cos_zero] at h
      exact h.mono_left nhdsWithin_le_nhds

/-! ## Claims -/

/-- Claim C7, amended: for every input vector a (the tangent passed by
every get_normal) whose Euclidean norm exceeds the 1e-14 singular-value
threshold of normal_nd, and for any SVD factors numpy may return for the
1×D matrix with row a, normal_nd returns exactly D - 1 columns that are
unit vectors, mutually orthogonal, each orthogonal to a, and that span
the orthogonal complement of a (every x orthogonal to a is the sum of
its projections on the returned columns).  The claim as stated, with
"nonzero" instead of the threshold, fails (see the counterexample). -/
theorem claimC7 (D : ℕ) [NeZero D] (a : Fin D → ℝ) (sv : SVD1 D a)
    (hnorm : (1e-14 : ℝ) < Real.sqrt (dotF a a)) :
    (normal_nd sv.V sv.S0).length = D - 1
    ∧ (∀ c ∈ normal_nd sv.V sv.S0, dotF c c = 1)
    ∧ (normal_nd sv.V sv.S0).Pairwise (fun c d => dotF c d = 0)
    ∧ (∀ c ∈ normal_nd sv.V sv.S0, dotF c a = 0)
    ∧ (∀ x : Fin D → ℝ, dotF x a = 0 →
        x = fun k => ((normal_nd sv.V sv.S0).map (fun c => dotF x c * c k)).sum) := by
  have hd : dotF a a = sv.S0 ^ 2 := by
    unfold dotF
    have h1 : ∀ k, a k * a k = sv.u ^ 2 * sv.S0 ^ 2 * (sv.V 0 k * sv.V 0 k) := by
      intro k
      rw [sv.decomp k]
      ring
    rw [Finset.sum_congr rfl fun k _ => h1 k, ← Finset.mul_sum]
    have h2 := sv.rows 0 0
    unfold dotF at h2
    rw [h2, if_pos rfl, mul_one, sv.hu, one_mul]
  have hthr : (1e-14 : ℝ) < sv.S0 := by
    rw [hd, Real.sqrt_sq sv.hS] at hnorm
    exact hnorm
  rcases Nat.exists_eq_succ_of_ne_zero (NeZero.ne D) with ⟨n, rfl⟩
  have hdrop : ((List.finRange (n + 1)).drop 1) = (List.finRange n).map Fin.succ := by
    rw [List.finRange_succ_eq_map]
    rfl
  have hcols : normal_nd sv.V sv.S0
      = (List.finRange n).map (fun j : Fin n => sv.V j.succ) := by
    unfold normal_nd
    rw [if_pos hthr, hdrop, List.map_map]
    rfl
  refine ⟨?_, ?_, ?_, ?_, ?_⟩
  · rw [hcols]
    simp
  · intro c hc
    rw [hcols] at hc
    rcases List.mem_map.1 hc with ⟨j, _, rfl⟩
    have h := sv.rows j.succ j.succ
    rw [if_pos rfl] at h
    exact h
  · rw [hcols, List.pairwise_map]
    refine (List.pairwise_lt_finRange n).imp ?_
    intro p q hpq
    have hne : p.succ ≠ q.succ :=
      fun hc => Fin.ne_of_lt hpq (Fin.succ_injective _ hc)
    have h := sv.rows p.succ q.succ
    rw [if_neg hne] at h
    exact h
  · intro c hc
    rw [hcols] at hc
    rcases List.mem_map.1 hc with ⟨j, _, rfl⟩
    unfold dotF
    have h1 : ∀ k, sv.V j.succ k * a k
        = (sv.u * sv.S0) * (sv.V j.succ k * sv.V 0 k) := by
      intro k
      rw [sv.decomp k]
      ring
    rw [Finset.sum_congr rfl fun k _ => h1 k, ← Finset.mul_sum]
    have h2 := sv.rows j.succ 0
    unfold dotF at h2
    rw [h2, if_neg (Fin.succ_ne_zero j), mul_zero]
  · intro x hx
    have hkey : ∀ k, x k = ∑ i : Fin (n + 1), dotF x (sv.V i) * sv.V i k := by
      intro k
      calc x k = ∑ l, x l * (if l = k then 1 else 0) := by
            simp [mul_ite]
        _ = ∑ l, x l * (∑ i, sv.V i l * sv.V i k) := by
            refine Finset.sum_congr rfl fun l _ => ?_
            rw [sv.cols l k]
        _ = ∑ l, ∑ i, x l * (sv.V i l * sv.V i k) := by
            refine Finset.sum_congr rfl fun l _ => ?_
            rw [Finset.mul_sum]
        _ = ∑ i, ∑ l, x l * (sv.V i l * sv.V i k) := Finset.sum_comm
        _ = ∑ i, dotF x (sv.V i) * sv.V i k := by
            refine Finset.sum_congr rfl fun i _ => ?_
            unfold dotF
            rw [Finset.sum_mul]
            refine Finset.sum_congr rfl fun l _ => ?_
            ring
    have hxV0 : dotF x (sv.V 0) = 0 := by
      have h1 : dotF x a = (sv.u * sv.S0) * dotF x (sv.V 0) := by
        unfold dotF
        calc ∑ k, x k * a k = ∑ k, (sv.u * sv.S0) * (x k * sv.V 0 k) := by
              refine Finset.sum_congr rfl fun k _ => ?_
              rw [sv.decomp k]
              ring
          _ = (sv.u * sv.S0) * ∑ k, x k * sv.V 0 k := by rw [Finset.mul_sum]
      have hune : sv.u ≠ 0 := by
        intro h
        have h2 := sv.hu
        rw [h] at h2
        norm_num at h2
      have hSne : sv.S0 ≠ 0 := ne_of_gt (lt_trans (by norm_num) hthr)
      have h3 := hx
      rw [h1] at h3
      rcases mul_eq_zero.1 h3 with h | h
      · exact absurd h (mul_ne_zero hune hSne)
      · exact h
    funext k
    have hsum := hkey k
    rw [Fin.sum_univ_succ, hxV0, zero_mul, zero_add] at hsum
    rw [hcols, List.map_map]
    rw [show ((fun c => dotF x c * c k) ∘ fun j : Fin n => sv.V j.succ)
        = (fun j : Fin n => dotF x (sv.V j.succ) * sv.V j.succ k) from rfl]
    rw [← Fin.sum_univ_def]
    exact hsum

theorem claimC7_witness :
    ((1e-14 : ℝ) < Real.sqrt (dotF goodA goodA))
    ∧ ((normal_nd goodSVD.V goodSVD.S0).length = 2 - 1
      ∧ (∀ c ∈ normal_nd goodSVD.V goodSVD.S0, dotF c c = 1)
      ∧ (normal_nd goodSVD.V goodSVD.S0).Pairwise (fun c d => dotF c d = 0)
      ∧ (∀ c ∈ normal_nd goodSVD.V goodSVD.S0, dotF c goodA = 0)
      ∧ (∀ x : Fin 2 → ℝ, dotF x goodA = 0 →
          x = fun k => ((normal_nd goodSVD.V goodSVD.S0).map
            (fun c => dotF x c * c k)).sum)) := by
  have hn : (1e-14 : ℝ) < Real.sqrt (dotF goodA goodA) := by
    rw [show dotF goodA goodA = 1 from by simp [dotF, Fin.sum_univ_two, goodA]]
    rw [Real.sqrt_one]
    norm_num
  exact ⟨hn, claimC7 2 goodA goodSVD hn⟩

/-- Claim C7, counterexample to the claim as stated: the degenerate
builder [(1,0),(1,0)] with n_features = 2 has, at t = 1e-20 (inside its
declared domain), the nonzero tangent (sin 1e-20, 0).  Its singular
value sin(1e-20) is below the 1e-14 threshold, so normal_nd keeps all
D = 2 rows of V: the output has 2 ≠ D - 1 columns and its first column
is parallel, not orthogonal, to the tangent. -/
theorem claimC7_cex :
    badBuilder.get_tangent 1e-20 = some cexTan
    ∧ toFin 2 cexTan ≠ (fun _ => 0)
    ∧ ¬ ((normal_nd cexSVD.V cexSVD.S0).length = 2 - 1
        ∧ ∀ c ∈ normal_nd cexSVD.V cexSVD.S0, dotF c (toFin 2 cexTan) = 0) := by
  have h3 := Real.pi_gt_three
  have hpos : 0 < Real.sin 1e-20 :=
    Real.sin_pos_of_pos_of_lt_pi (by norm_num) (by nlinarith)
  refine ⟨?_, ?_, ?_⟩
  · have hseg : segIdx (1e-20 : ℝ) = 0 := by
      have h := segIdx_eq 0 1e-20 (by push_cast; norm_num)
        (by push_cast; nlinarith)
      simpa using h
    unfold Circle_Segment_Builder.get_tangent
    rw [hseg]
    have hg0 : pyGet badBuilder.sequence 0 = some (1, 0) := rfl
    have hg1 : pyGet badBuilder.sequence (0 + 1) = some (1, 0) := rfl
    rw [hg0, hg1]
    simp only [Option.some_bind]
    rw [if_pos (by exact ⟨by norm_num [badBuilder], by norm_num [badBuilder]⟩)]
    refine congrArg some (funext fun i => ?_)
    rcases eq_or_ne i 0 with rfl | h0
    · rw [Function.update_same]
      norm_num [cexTan]
    · rw [Function.update_noteq h0, Function.update_noteq h0]
      simp [cexTan, h0]
  · intro h
    have h0 := congrFun h (0 : Fin 2)
    simp [toFin, cexTan] at h0
    linarith
  · rintro ⟨-, hperp⟩
    have hS0def : cexSVD.S0 = Real.sin 1e-20 := rfl
    have hVdef : cexSVD.V = cexV := rfl
    have hsmall : ¬ ((1e-14 : ℝ) < cexSVD.S0) := by
      rw [hS0def]
      have h1 : Real.sin 1e-20 < 1e-20 := Real.sin_lt (by norm_num)
      have h2 : (1e-20 : ℝ) < 1e-14 := by norm_num
      linarith
    have hmem : cexSVD.V 0 ∈ normal_nd cexSVD.V cexSVD.S0 := by
      unfold normal_nd
      rw [if_neg hsmall]
      exact List.mem_map.2 ⟨0, List.mem_finRange 0, rfl⟩
    have hval : dotF (cexSVD.V 0) (toFin 2 cexTan) = Real.sin 1e-20 := by
      rw [hVdef]
      simp [dotF, Fin.sum_univ_two, cexV, toFin, cexTan]
    have h0 := hperp (cexSVD.V 0) hmem
    rw [hval] at h0
    linarith

/-- Claim C8: for Identity_kD with n_active_features k and n_features n
with k ≤ n (k defaulting to n when unspecified), get_basepoint(t) has
its first k coordinates equal to t/sqrt(k) and coordinates k..n-1 equal
to zero, and get_tangent(t) is constant with first k coordinates
1/sqrt(k) and the remaining coordinates zero. -/
theorem claimC8 (n k : ℕ) (t : ℝ) (_hkn : k ≤ n) :
    (Identity_kD.init n 0 1 none).k = n
    ∧ (∀ i, i < k → Identity_kD.get_basepoint ⟨n, 0, 1, k⟩ t i = t / Real.sqrt k)
    ∧ (∀ i, k ≤ i → i < n → Identity_kD.get_basepoint ⟨n, 0, 1, k⟩ t i = 0)
    ∧ (∀ i, i < k → Identity_kD.get_tangent ⟨n, 0, 1, k⟩ t i = 1 / Real.sqrt k)
    ∧ (∀ i, k ≤ i → i < n → Identity_kD.get_tangent ⟨n, 0, 1, k⟩ t i = 0) := by
  refine ⟨rfl, fun i hi => ?_, fun i hi _ => ?_, fun i hi => ?_, fun i hi _ => ?_⟩
  · simp [Identity_kD.get_basepoint, hi]
  · simp [Identity_kD.get_basepoint, Nat.not_lt.2 hi]
  · simp [Identity_kD.get_tangent, hi]
  · simp [Identity_kD.get_tangent, Nat.not_lt.2 hi]

theorem claimC8_witness :
    (2 ≤ 3)
    ∧ ((Identity_kD.init 3 0 1 none).k = 3
    ∧ (∀ i, i < 2 → Identity_kD.get_basepoint ⟨3, 0, 1, 2⟩ 5 i = 5 / Real.sqrt 2)
    ∧ (∀ i, 2 ≤ i → i < 3 → Identity_kD.get_basepoint ⟨3, 0, 1, 2⟩ 5 i = 0)
    ∧ (∀ i, i < 2 → Identity_kD.get_tangent ⟨3, 0, 1, 2⟩ 5 i = 1 / Real.sqrt 2)
    ∧ (∀ i, 2 ≤ i → i < 3 → Identity_kD.get_tangent ⟨3, 0, 1, 2⟩ 5 i = 0)) :=
  ⟨by norm_num, claimC8 3 2 5 (by norm_num)⟩

/-- Claim C10: in knn, when neighbor_modus is "factor" the neighbor
count passed to the regressor is floor(n_neighbors * N^(2/(2+D))) cast
to an integer; for any other neighbor_modus the given n_neighbors is
used unchanged. -/
theorem claimC10 (modus : String) (n_neighbors N D : ℝ) :
    (modus = "factor" →
      knn.n_neighbors_used modus n_neighbors N D
        = ((⌊n_neighbors * N ^ (2 / (2 + D))⌋ : ℤ) : ℝ))
    ∧ (modus ≠ "factor" →
      knn.n_neighbors_used modus n_neighbors N D = n_neighbors) := by
  constructor
  · intro h
    simp [knn.n_neighbors_used, h]
  · intro h
    simp [knn.n_neighbors_used, h]

theorem claimC10_witness :
    ("factor" = "factor"
      ∧ knn.n_neighbors_used "factor" 1 1 1
          = ((⌊(1 : ℝ) * (1 : ℝ) ^ (2 / (2 + (1 : ℝ)))⌋ : ℤ) : ℝ))
    ∧ ("absolute" ≠ "factor"
      ∧ knn.n_neighbors_used "absolute" 1 1 1 = 1) :=
  ⟨⟨rfl, (claimC10 "factor" 1 1 1).1 rfl⟩,
   ⟨by decide, (claimC10 "absolute" 1 1 1).2 (by decide)⟩⟩

/-- Claim C9, code evaluation: the claim says every one of the four
identifiers returns a constructed curve, but the branch for "circle"
references the unbound name Circle (the class is Circle_Piece_2D), so it
raises NameError instead of returning an instance.  The remaining
dispatch behaviour matches the claim: identity, scurve and helix return
constructed instances, and every other identifier, including the default
None, raises NotImplementedError. -/
theorem claimC9 :
    get_manifold 2 (some "circle") 0 1 none 1 1
        = Except.error (PyExn.nameError "Circle")
    ∧ get_manifold 2 (some "identity") 0 1 none 1 1
        = Except.ok (Manifold.identity (Identity_kD.init 2 0 1 none))
    ∧ get_manifold 2 (some "scurve") 0 1 none 1 1
        = Except.ok (Manifold.scurve ⟨2, 0, 1⟩)
    ∧ get_manifold 3 (some "helix") 0 1 none 1 1
        = Except.ok (Manifold.helix ⟨3, 0, 1, 1, 1⟩)
    ∧ get_manifold 2 none 0 1 none 1 1
        = Except.error (PyExn.notImplementedError none)
    ∧ get_manifold 2 (some "bogus") 0 1 none 1 1
        = Except.error (PyExn.notImplementedError (some "bogus")) := by
  refine ⟨?_, ?_, ?_, ?_, ?_, ?_⟩ <;> simp [get_manifold]

/-- Claim C1, code evaluation: for the helix with radius 1 and pitch 1
at t = 0, the axial (third) component of get_curvature_vector is
alpha * pitch = 1/sqrt(2), which is not zero, contradicting the claimed
exact vanishing (the source copies the tangent term alpha*pitch into
vec[2] instead of the second derivative 0 of alpha*pitch*t).  The radial
part of the claim does hold at this input: the norm of the first two
components is radius * alpha^2. -/
theorem claimC1 :
    Helix_Curve_3D.get_curvature_vector ⟨3, 0, 1, 1, 1⟩ 0 2
        = Helix_Curve_3D.alpha ⟨3, 0, 1, 1, 1⟩ * 1
    ∧ Helix_Curve_3D.get_curvature_vector ⟨3, 0, 1, 1, 1⟩ 0 2 ≠ 0
    ∧ Real.sqrt ((Helix_Curve_3D.get_curvature_vector ⟨3, 0, 1, 1, 1⟩ 0 0) ^ 2
        + (Helix_Curve_3D.get_curvature_vector ⟨3, 0, 1, 1, 1⟩ 0 1) ^ 2)
        = 1 * (Helix_Curve_3D.alpha ⟨3, 0, 1, 1, 1⟩) ^ 2 := by
  have h4 : Real.sqrt 4 = 2 := by
    rw [show (4 : ℝ) = 2 ^ 2 by norm_num, Real.sqrt_sq (by norm_num : (0 : ℝ) ≤ 2)]
  refine ⟨rfl, ?_, ?_⟩
  · simp only [Helix_Curve_3D.get_curvature_vector, Helix_Curve_3D.alpha]
    norm_num
  · simp only [Helix_Curve_3D.get_curvature_vector, Helix_Curve_3D.alpha]
    norm_num [h4]

/-- Claim C3, counterexample: at caller parameter t = pi (shifted
parameter pi/2 > 0) the second coordinate of S_Curve_2D.get_basepoint is
sin(pi/2) = 1, not -sin(pi/2) = -1 as the claim states. -/
theorem claimC3_cex :
    S_Curve_2D.get_basepoint ⟨2, 0, Real.pi⟩ Real.pi 1 = 1
    ∧ ¬ (S_Curve_2D.get_basepoint ⟨2, 0, Real.pi⟩ Real.pi 1
          = -Real.sin (Real.pi - Real.pi / 2)) := by
  have hpi := Real.pi_pos
  have hh : Real.pi - Real.pi / 2 = Real.pi / 2 := by ring
  have hgt2 : ¬ (Real.pi / 2 ≤ 0) := by linarith
  constructor
  · simp [S_Curve_2D.get_basepoint, hh, hgt2]
  · simp [S_Curve_2D.get_basepoint, hh, hgt2, Real.sin_pi_div_two]
    norm_num

/-- Claim C3, amended: for every caller parameter t with shifted value
t - pi/2 strictly positive, the first two coordinates of get_basepoint
are (2 - cos(t - pi/2), sin(t - pi/2)): the reflection affects only the
first coordinate, and the second coordinate is + sin of the shifted
parameter (which is what makes the join with the first arc C1). -/
theorem claimC3 (c : S_Curve_2D) (t : ℝ) (h : 0 < t - Real.pi / 2) :
    S_Curve_2D.get_basepoint c t 0 = 2 - Real.cos (t - Real.pi / 2)
    ∧ S_Curve_2D.get_basepoint c t 1 = Real.sin (t - Real.pi / 2) := by
  have hgt : ¬ (t - Real.pi / 2 ≤ 0) := not_le.2 h
  constructor <;> simp [S_Curve_2D.get_basepoint, hgt]

/-- Claim C6: for a Circle_Segment_Builder built from a sequence of
length L, both get_basepoint and get_tangent read sequence[seg+1] with
seg = floor(t/(pi/2)); whenever seg = L - 1 (the last of the stored
_n_segments = L segments) that access is one past the end of the list
and raises an IndexError (modelled as none), so the queries are
well defined only when seg ≤ L - 2. -/
theorem claimC6 (b : Circle_Segment_Builder) (t : ℝ)
    (hL : 1 ≤ b.sequence.length)
    (hseg : segIdx t = (b.sequence.length : ℤ) - 1) :
    b.get_basepoint t = none ∧ b.get_tangent t = none := by
  have hnone : pyGet b.sequence (segIdx t + 1) = none := by
    rw [hseg]
    have h : (b.sequence.length : ℤ) - 1 + 1 = (b.sequence.length : ℤ) := by ring
    rw [h]
    unfold pyGet pyIdx
    rw [if_neg (by omega), if_neg (by omega)]
  constructor
  · unfold Circle_Segment_Builder.get_basepoint
    rcases hpi : pyIdx b.sequence.length (segIdx t) with _ | segn
    · simp [hpi]
    · rcases hg : pyGet b.sequence (segIdx t) with _ | si
      · simp [hpi, hg]
      · simp [hpi, hg, hnone]
  · unfold Circle_Segment_Builder.get_tangent
    rcases hg : pyGet b.sequence (segIdx t) with _ | si
    · simp [hg]
    · simp [hg, hnone]

theorem claimC6_witness :
    (1 ≤ B2.sequence.length
      ∧ segIdx (3 * (Real.pi / 2)) = (B2.sequence.length : ℤ) - 1)
    ∧ (B2.get_basepoint (3 * (Real.pi / 2)) = none
      ∧ B2.get_tangent (3 * (Real.pi / 2)) = none) := by
  have hp := Real.pi_pos
  have hseg : segIdx (3 * (Real.pi / 2)) = (3 : ℤ) := by
    have h := segIdx_eq 3 (3 * (Real.pi / 2)) (by push_cast; linarith) (by push_cast; linarith)
    simpa using h
  have hlen : (B2.sequence.length : ℤ) = 4 := by simp [B2]
  refine ⟨⟨by simp [B2], by rw [hseg, hlen]; decide⟩, ?_⟩
  exact claimC6 B2 _ (by simp [B2]) (by rw [hseg, hlen]; decide)

theorem claimC3_witness :
    (0 < Real.pi - Real.pi / 2)
    ∧ (S_Curve_2D.get_basepoint ⟨2, 0, Real.pi⟩ Real.pi 0
        = 2 - Real.cos (Real.pi - Real.pi / 2)
      ∧ S_Curve_2D.get_basepoint ⟨2, 0, Real.pi⟩ Real.pi 1
        = Real.sin (Real.pi - Real.pi / 2)) :=
  ⟨by linarith [Real.pi_pos],
   claimC3 ⟨2, 0, Real.pi⟩ Real.pi (by linarith [Real.pi_pos])⟩

/-- Claim C4: every concrete curve variant has a tangent of exact
Euclidean norm 1 at every parameter:
Identity_kD (with 1 ≤ k ≤ n_features), Circle_Piece_2D and S_Curve_2D
(with n_features ≥ 2), Helix_Curve_3D (with n_features ≥ 3 and
non-degenerate radius and pitch), and Circle_Segment_Builder whenever
the query succeeds and the two sequence entries of the queried segment
are signs on distinct in-range axes. -/
theorem claimC4 :
    (∀ (c : Identity_kD) (t : ℝ), 1 ≤ c.k → c.k ≤ c.n_features →
      Real.sqrt (sqnorm c.n_features (c.get_tangent t)) = 1)
    ∧ (∀ (c : Circle_Piece_2D) (t : ℝ), 2 ≤ c.n_features →
      Real.sqrt (sqnorm c.n_features (c.get_tangent t)) = 1)
    ∧ (∀ (c : S_Curve_2D) (t : ℝ), 2 ≤ c.n_features →
      Real.sqrt (sqnorm c.n_features (c.get_tangent t)) = 1)
    ∧ (∀ (c : Helix_Curve_3D) (t : ℝ), 3 ≤ c.n_features →
      0 < c.radius ^ 2 + c.pitch ^ 2 →
      Real.sqrt (sqnorm c.n_features (c.get_tangent t)) = 1)
    ∧ (∀ (b : Circle_Segment_Builder) (t : ℝ) (si sj : ℤ × ℕ) (v : ℕ → ℝ),
      pyGet b.sequence (segIdx t) = some si →
      pyGet b.sequence (segIdx t + 1) = some sj →
      si.2 ≠ sj.2 → si.1 ^ 2 = 1 → sj.1 ^ 2 = 1 →
      b.get_tangent t = some v →
      Real.sqrt (sqnorm b.n_features v) = 1) := by
  refine ⟨?_, ?_, ?_, ?_, ?_⟩
  · intro c t hk1 hkn
    have hkpos : (0 : ℝ) < (c.k : ℝ) := by exact_mod_cast hk1
    have hval : sqnorm c.n_features (c.get_tangent t) = 1 := by
      unfold Identity_kD.get_tangent
      rw [sqnorm_const_head c.n_features c.k hkn]
      rw [div_pow, one_pow, Real.sq_sqrt (le_of_lt hkpos)]
      field_simp
    rw [hval, Real.sqrt_one]
  · intro c t hn
    have hval : sqnorm c.n_features (c.get_tangent t) = 1 := by
      unfold Circle_Piece_2D.get_tangent
      rw [sqnorm_pair c.n_features 0 1 (by norm_num) (by omega) (by omega) _
        (by intro i h0 h1; simp [h0, h1])]
      norm_num
    rw [hval, Real.sqrt_one]
  · intro c t hn
    have hval : sqnorm c.n_features (c.get_tangent t) = 1 := by
      unfold S_Curve_2D.get_tangent
      split
      · rw [sqnorm_pair c.n_features 0 1 (by norm_num) (by omega) (by omega) _
          (by intro i h0 h1; simp [h0, h1])]
        norm_num
      · rw [sqnorm_pair c.n_features 0 1 (by norm_num) (by omega) (by omega) _
          (by intro i h0 h1; simp [h0, h1])]
        norm_num
    rw [hval, Real.sqrt_one]
  · intro c t hn hpos
    have halpha : c.alpha ^ 2 * (c.radius ^ 2 + c.pitch ^ 2) = 1 := by
      unfold Helix_Curve_3D.alpha
      rw [div_pow, one_pow, Real.sq_sqrt (le_of_lt hpos)]
      field_simp
    have hval : sqnorm c.n_features (c.get_tangent t) = 1 := by
      unfold Helix_Curve_3D.get_tangent
      rw [sqnorm_three c.n_features hn _
        (by intro i h0 h1 h2; simp [h0, h1, h2])]
      norm_num
      linear_combination (c.alpha ^ 2 * c.radius ^ 2) * Real.sin_sq_add_cos_sq (c.alpha * t)
        + halpha
    rw [hval, Real.sqrt_one]
  · intro b t si sj v hsi hsj hne hsi1 hsj1 hv
    have hsiR : ((si.1 : ℝ)) ^ 2 = 1 := by exact_mod_cast hsi1
    have hsjR : ((sj.1 : ℝ)) ^ 2 = 1 := by exact_mod_cast hsj1
    unfold Circle_Segment_Builder.get_tangent at hv
    rw [hsi, hsj] at hv
    simp only [Option.some_bind] at hv
    by_cases hcond : si.2 < b.n_features ∧ sj.2 < b.n_features
    · rw [if_pos hcond, Option.some.injEq] at hv
      subst hv
      have hoff : ∀ i, i ≠ si.2 → i ≠ sj.2 →
          Function.update
            (Function.update (fun _ : ℕ => (0 : ℝ)) si.2
              ((si.1 : ℝ) * Real.cos (t - (segIdx t : ℝ) * (Real.pi / 2))))
            sj.2 ((sj.1 : ℝ) * Real.sin (t - (segIdx t : ℝ) * (Real.pi / 2))) i = 0 := by
        intro i hia hib
        rw [Function.update_noteq hib, Function.update_noteq hia]
      rw [sqnorm_pair b.n_features si.2 sj.2 hne hcond.1 hcond.2 _ hoff]
      rw [Function.update_noteq hne, Function.update_same, Function.update_same]
      have hval : ((si.1 : ℝ) * Real.cos (t - (segIdx t : ℝ) * (Real.pi / 2))) ^ 2
          + ((sj.1 : ℝ) * Real.sin (t - (segIdx t : ℝ) * (Real.pi / 2))) ^ 2 = 1 := by
        linear_combination (Real.cos (t - (segIdx t : ℝ) * (Real.pi / 2))) ^ 2 * hsiR
          + (Real.sin (t - (segIdx t : ℝ) * (Real.pi / 2))) ^ 2 * hsjR
          + Real.sin_sq_add_cos_sq (t - (segIdx t : ℝ) * (Real.pi / 2))
      rw [hval, Real.sqrt_one]
    · rw [if_neg hcond] at hv
      exact absurd hv (by simp)

/-- Claim C2, counterexample: at t = 3*pi/2 the builder does not return
the claimed point (-1, 1): the query reads sequence[4], which is out of
range, so it raises an IndexError and returns no value at all. -/
theorem claimC2_cex :
    ((B2.get_basepoint (3 * (Real.pi / 2))).map fun v => (v 0, v 1)) = none := by
  rw [B2_3pihalf_none.1]
  rfl

/-- Claim C2, amended: for the builder with sequence
[(1,0),(1,1),(-1,0),(-1,1)] and n_features = 2, get_basepoint returns
(0,0) at t = 0, (1,1) at t = pi/2 and (0,2) at t = pi; at t = 3*pi/2
both get_basepoint and get_tangent fail with an IndexError instead of
returning (-1,1); and both queries are continuous across the interior
segment boundaries pi/2 and pi: the one-sided limits agree with the
values there (basepoint (1,1) and (0,2), tangent (0,1) and (-1,0)). -/
theorem claimC2 :
    B2.get_basepoint 0 = some (vec2 0 0)
    ∧ B2.get_basepoint (Real.pi / 2) = some (vec2 1 1)
    ∧ B2.get_basepoint Real.pi = some (vec2 0 2)
    ∧ B2.get_basepoint (3 * (Real.pi / 2)) = none
    ∧ B2.get_tangent (3 * (Real.pi / 2)) = none
    ∧ B2.get_tangent (Real.pi / 2) = some (vec2 0 1)
    ∧ B2.get_tangent Real.pi = some (vec2 (-1) 0)
    ∧ Filter.Tendsto (fun t => (B2.get_basepoint t).getD (fun _ => 0))
        (𝓝[<] (Real.pi / 2)) (𝓝 (vec2 1 1))
    ∧ Filter.Tendsto (fun t => (B2.get_basepoint t).getD (fun _ => 0))
        (𝓝[>] (Real.pi / 2)) (𝓝 (vec2 1 1))
    ∧ Filter.Tendsto (fun t => (B2.get_basepoint t).getD (fun _ => 0))
        (𝓝[<] Real.pi) (𝓝 (vec2 0 2))
    ∧ Filter.Tendsto (fun t => (B2.get_basepoint t).getD (fun _ => 0))
        (𝓝[>] Real.pi) (𝓝 (vec2 0 2))
    ∧ Filter.Tendsto (fun t => (B2.get_tangent t).getD (fun _ => 0))
        (𝓝[<] (Real.pi / 2)) (𝓝 (vec2 0 1))
    ∧ Filter.Tendsto (fun t => (B2.get_tangent t).getD (fun _ => 0))
        (𝓝[>] (Real.pi / 2)) (𝓝 (vec2 0 1))
    ∧ Filter.Tendsto (fun t => (B2.get_tangent t).getD (fun _ => 0))
        (𝓝[<] Real.pi) (𝓝 (vec2 (-1) 0))
    ∧ Filter.Tendsto (fun t => (B2.get_tangent t).getD (fun _ => 0))
        (𝓝[>] Real.pi) (𝓝 (vec2 (-1) 0)) := by
  refine ⟨?_, ?_, ?_, B2_3pihalf_none.1, B2_3pihalf_none.2, ?_, ?_,
    B2_bpL1, B2_bpR1, B2_bpL2, B2_bpR2, B2_tanL1, B2_tanR1, B2_tanL2, B2_tanR2⟩
  · rw [B2_bp_seg0 0 segIdx_zero]
    refine congrArg some (funext fun i => ?_)
    unfold vec2
    rcases eq_or_ne i 0 with rfl | h0
    · norm_num
    rcases eq_or_ne i 1 with rfl | h1
    · norm_num
    · simp [h0, h1]
  · rw [B2_bp_seg1 _ segIdx_pihalf]
    refine congrArg some (funext fun i => ?_)
    unfold vec2
    rcases eq_or_ne i 0 with rfl | h0
    · norm_num
    rcases eq_or_ne i 1 with rfl | h1
    · norm_num
    · simp [h0, h1]
  · rw [B2_bp_seg2 _ segIdx_pi]
    refine congrArg some (funext fun i => ?_)
    unfold vec2
    rcases eq_or_ne i 0 with rfl | h0
    · norm_num
    rcases eq_or_ne i 1 with rfl | h1
    · norm_num
    · simp [h0, h1]
  · rw [B2_tan_seg1 _ segIdx_pihalf]
    refine congrArg some (funext fun i => ?_)
    unfold vec2
    rcases eq_or_ne i 0 with rfl | h0
    · norm_num
    rcases eq_or_ne i 1 with rfl | h1
    · norm_num
    · simp [h0, h1]
  · rw [B2_tan_seg2 _ segIdx_pi]
    refine congrArg some (funext fun i => ?_)
    unfold vec2
    rcases eq_or_ne i 0 with rfl | h0
    · norm_num
    rcases eq_or_ne i 1 with rfl | h1
    · norm_num
    · simp [h0, h1]

/-- Claim C5: at the S-curve join t = pi/2 (shifted parameter 0) the two
branch formulas agree: the basepoint value and both one-sided limits are
(1,0) and the tangent value and both one-sided limits are (0,1), so the
curve is continuous and C1 at the join. -/
theorem claimC5 (c : S_Curve_2D) :
    S_Curve_2D.get_basepoint c (Real.pi / 2) = vec2 1 0
    ∧ Filter.Tendsto (fun t => S_Curve_2D.get_basepoint c t)
        (𝓝[<] (Real.pi / 2)) (𝓝 (vec2 1 0))
    ∧ Filter.Tendsto (fun t => S_Curve_2D.get_basepoint c t)
        (𝓝[>] (Real.pi / 2)) (𝓝 (vec2 1 0))
    ∧ S_Curve_2D.get_tangent c (Real.pi / 2) = vec2 0 1
    ∧ Filter.Tendsto (fun t => S_Curve_2D.get_tangent c t)
        (𝓝[<] (Real.pi / 2)) (𝓝 (vec2 0 1))
    ∧ Filter.Tendsto (fun t => S_Curve_2D.get_tangent c t)
        (𝓝[>] (Real.pi / 2)) (𝓝 (vec2 0 1)) := by
  have hp := Real.pi_pos
  have hcos : Continuous fun t : ℝ => Real.cos (t - Real.pi / 2) :=
    Real.continuous_cos.comp (continuous_sub_right _)
  have hsin : Continuous fun t : ℝ => Real.sin (t - Real.pi / 2) :=
    Real.continuous_sin.comp (continuous_sub_right _)
  refine ⟨?_, ?_, ?_, ?_, ?_, ?_⟩
  · unfold S_Curve_2D.get_basepoint
    rw [if_pos (by norm_num : Real.pi / 2 - Real.pi / 2 ≤ 0)]
    funext i
    unfold vec2
    rcases eq_or_ne i 0 with rfl | h0
    · norm_num
    rcases eq_or_ne i 1 with rfl | h1
    · norm_num
    · simp [h0, h1]
  · have hev : (fun t => fun i : ℕ => if i = 0 then Real.cos (t - Real.pi / 2)
        else if i = 1 then Real.sin (t - Real.pi / 2) else 0)
        =ᶠ[𝓝[<] (Real.pi / 2)] (fun t => S_Curve_2D.get_basepoint c t) := by
      filter_upwards [self_mem_nhdsWithin] with t ht
      unfold S_Curve_2D.get_basepoint
      rw [if_pos (by have := Set.mem_Iio.1 ht; linarith)]
    refine Filter.Tendsto.congr' hev ?_
    show Filter.Tendsto _ _
        (𝓝 (fun i : ℕ => if i = 0 then (1 : ℝ) else if i = 1 then 0 else 0))
    apply tendsto_formula2
    · exact Filter.Tendsto.mono_left
        (by simpa using hcos.tendsto (Real.pi / 2)) nhdsWithin_le_nhds
    · exact Filter.Tendsto.mono_left
        (by simpa using hsin.tendsto (Real.pi / 2)) nhdsWithin_le_nhds
  · have hev : (fun t => fun i : ℕ => if i = 0 then 2 - Real.cos (t - Real.pi / 2)
        else if i = 1 then Real.sin (t - Real.pi / 2) else 0)
        =ᶠ[𝓝[>] (Real.pi / 2)] (fun t => S_Curve_2D.get_basepoint c t) := by
      filter_upwards [self_mem_nhdsWithin] with t ht
      unfold S_Curve_2D.get_basepoint
      rw [if_neg (by have := Set.mem_Ioi.1 ht; linarith)]
    refine Filter.Tendsto.congr' hev ?_
    show Filter.Tendsto _ _
        (𝓝 (fun i : ℕ => if i = 0 then (1 : ℝ) else if i = 1 then 0 else 0))
    apply tendsto_formula2
    · have hc : Continuous fun t : ℝ => 2 - Real.cos (t - Real.pi / 2) :=
        continuous_const.sub hcos
      have h := hc.tendsto (Real.pi / 2)
      rw [show Real.pi / 2 - Real.pi / 2 = 0 from by ring, Real.cos_zero] at h
      norm_num at h
      exact h.mono_left nhdsWithin_le_nhds
    · exact Filter.Tendsto.mono_left
        (by simpa using hsin.tendsto (Real.pi / 2)) nhdsWithin_le_nhds
  · unfold S_Curve_2D.get_tangent
    rw [if_pos (by norm_num : Real.pi / 2 - Real.pi / 2 ≤ 0)]
    funext i
    unfold vec2
    rcases eq_or_ne i 0 with rfl | h0
    · norm_num
    rcases eq_or_ne i 1 with rfl | h1
    · norm_num
    · simp [h0, h1]
  · have hev : (fun t => fun i : ℕ => if i = 0 then -Real.sin (t - Real.pi / 2)
        else if i = 1 then Real.cos (t - Real.pi / 2) else 0)
        =ᶠ[𝓝[<] (Real.pi / 2)] (fun t => S_Curve_2D.get_tangent c t) := by
      filter_upwards [self_mem_nhdsWithin] with t ht
      unfold S_Curve_2D.get_tangent
      rw [if_pos (by have := Set.mem_Iio.1 ht; linarith)]
    refine Filter.Tendsto.congr' hev ?_
    show Filter.Tendsto _ _
        (𝓝 (fun i : ℕ => if i = 0 then (0 : ℝ) else if i = 1 then 1 else 0))
    apply tendsto_formula2
    · exact Filter.Tendsto.mono_left
        (by simpa using hsin.neg.tendsto (Real.pi / 2)) nhdsWithin_le_nhds
    · exact Filter.Tendsto.mono_left
        (by simpa using hcos.tendsto (Real.pi / 2)) nhdsWithin_le_nhds
  · have hev : (fun t => fun i : ℕ => if i = 0 then Real.sin (t - Real.pi / 2)
        else if i = 1 then Real.cos (t - Real.pi / 2) else 0)
        =ᶠ[𝓝[>] (Real.pi / 2)] (fun t => S_Curve_2D.get_tangent c t) := by
      filter_upwards [self_mem_nhdsWithin] with t ht
      unfold S_Curve_2D.get_tangent
      rw [if_neg (by have := Set.mem_Ioi.1 ht; linarith)]
    refine Filter.Tendsto.congr' hev ?_
    show Filter.Tendsto _ _
        (𝓝 (fun i : ℕ => if i = 0 then (0 : ℝ) else if i = 1 then 1 else 0))
    apply tendsto_formula2
    · exact Filter.Tendsto.mono_left
        (by simpa using hsin.tendsto (Real.pi / 2)) nhdsWithin_le_nhds
    · exact Filter.Tendsto.mono_left
        (by simpa using hcos.tendsto (Real.pi / 2)) nhdsWithin_le_nhds

theorem claimC4_witness :
    ((1 ≤ (1 : ℕ) ∧ (1 : ℕ) ≤ 2)
      ∧ Real.sqrt (sqnorm 2 (Identity_kD.get_tangent ⟨2, 0, 1, 1⟩ 0)) = 1)
    ∧ ((2 : ℕ) ≤ 2
      ∧ Real.sqrt (sqnorm 2 (Circle_Piece_2D.get_tangent ⟨2, 0, 1⟩ 0)) = 1)
    ∧ ((2 : ℕ) ≤ 2
      ∧ Real.sqrt (sqnorm 2 (S_Curve_2D.get_tangent ⟨2, 0, 1⟩ 0)) = 1)
    ∧ ((3 : ℕ) ≤ 3 ∧ (0 : ℝ) < 1 ^ 2 + 1 ^ 2
      ∧ Real.sqrt (sqnorm 3 (Helix_Curve_3D.get_tangent ⟨3, 0, 1, 1, 1⟩ 0)) = 1)
    ∧ (pyGet B2.sequence (segIdx 0) = some (1, 0)
      ∧ pyGet B2.sequence (segIdx 0 + 1) = some (1, 1)
      ∧ ((0 : ℕ) ≠ 1 ∧ (1 : ℤ) ^ 2 = 1)
      ∧ B2.get_tangent 0 = some wB2t0
      ∧ Real.sqrt (sqnorm 2 wB2t0) = 1) := by
  have h0 : pyGet B2.sequence (segIdx 0) = some (1, 0) := by
    rw [segIdx_zero]
    rfl
  have h1 : pyGet B2.sequence (segIdx 0 + 1) = some (1, 1) := by
    rw [segIdx_zero]
    rfl
  have htan : B2.get_tangent 0 = some wB2t0 := by
    unfold Circle_Segment_Builder.get_tangent
    rw [h0, h1]
    simp only [Option.some_bind]
    rw [if_pos (by exact ⟨by norm_num [B2], by norm_num [B2]⟩)]
    rfl
  refine ⟨⟨⟨le_refl 1, by norm_num⟩, claimC4.1 ⟨2, 0, 1, 1⟩ 0 (le_refl 1) (by norm_num)⟩,
    ⟨le_refl 2, claimC4.2.1 ⟨2, 0, 1⟩ 0 (le_refl 2)⟩,
    ⟨le_refl 2, claimC4.2.2.1 ⟨2, 0, 1⟩ 0 (le_refl 2)⟩,
    ⟨le_refl 3, by norm_num, claimC4.2.2.2.1 ⟨3, 0, 1, 1, 1⟩ 0 (le_refl 3) (by norm_num)⟩,
    h0, h1, ⟨by norm_num, by norm_num⟩, htan,
    claimC4.2.2.2.2 B2 0 (1, 0) (1, 1) wB2t0 h0 h1 (by norm_num) (by norm_num)
      (by norm_num) htan⟩

end
